import Mathlib

/-!
# stopthread: identifier validation and trace-stop orchestration

A shallow embedding of `src/stopthread.c`.

* Machine integers are `Nat`/`Int` with explicit reduction: `uintmax_t` is 64 bits wide,
  `pid_t` is a 32-bit two's complement integer (Linux).
* A C string is the list of its characters before the terminating NUL; reading the position
  just past the list yields NUL.
* The kernel is an oracle: each tracing call is answered from the history of earlier calls,
  and the answer carries the return value, the wait status and the value of `errno` that the
  call leaves behind.  The calls and the lines printed are recorded in a `World`.
-/

namespace StopThread

/-! ## Platform constants -/

def EINVAL : Int := 22
def ERANGE : Int := 34
def EXIT_SUCCESS : Int := 0
def EXIT_FAILURE : Int := 1
def UINTMAX_MAX : Nat := 2 ^ 64 - 1
def PID_MAX : Int := 2 ^ 31 - 1
def PTRACE_SEIZE : Nat := 0x4206
def PTRACE_INTERRUPT : Nat := 0x4207
def __WALL : Nat := 0x40000000

/-- The NUL character that terminates a C string. -/
def NUL : Char := Char.ofNat 0

/-! ## The C library: `strtoumax` in the C locale, base 10 (ISO C 7.8.2.3, 7.22.1.4) -/

/-- The `isspace` class of the C locale: space, `\t`, `\n`, `\v`, `\f`, `\r`. -/
def isspace (c : Char) : Bool :=
  c = ' ' || c = '\t' || c = '\n' || c = Char.ofNat 11 || c = Char.ofNat 12 || c = '\r'

/-- A base-10 digit as `strtoumax` recognises it. -/
def isdigit (c : Char) : Bool := decide ('0' ≤ c) && decide (c ≤ '9')

def digitValue (c : Char) : Nat := c.toNat - '0'.toNat

/-- Skip the initial white space; returns the rest and the number of characters skipped. -/
def skipSpace : List Char → Nat → List Char × Nat
  | [], n => ([], n)
  | c :: cs, n => if isspace c then skipSpace cs (n + 1) else (c :: cs, n)

/-- The optional sign: (negative?, rest, characters consumed). -/
def scanSign : List Char → Bool × List Char × Nat
  | [] => (false, [], 0)
  | c :: cs =>
    if c = '-' then (true, cs, 1)
    else if c = '+' then (false, cs, 1)
    else (false, c :: cs, 0)

/-- The digit loop: accumulates the mathematical value of the longest run of digits and
counts them. -/
def scanDigits : List Char → Nat → Nat → Nat × Nat
  | [], acc, n => (acc, n)
  | c :: cs, acc, n =>
    if isdigit c then scanDigits cs (acc * 10 + digitValue c) (n + 1) else (acc, n)

/-- What `strtoumax(nptr, &endptr, 10)` leaves behind: the returned value, the offset of
`endptr` from `nptr`, and `errno`. -/
structure Strtoumax where
  value : Nat
  endptr : Nat
  errno : Int
deriving DecidableEq, Repr

/-- The function `strtoumax(nptr, &endptr, 10)`, `errno` being the value before the call.
White space is skipped, one sign is taken, then the digits.  With no digit nothing is
converted and `endptr = nptr`.  A value above `UINTMAX_MAX` gives `UINTMAX_MAX` and `ERANGE`.
A minus sign negates the value in `uintmax_t`. -/
def strtoumax (nptr : List Char) (errno : Int) : Strtoumax :=
  let sp := skipSpace nptr 0
  let sg := scanSign sp.1
  let dg := scanDigits sg.2.1 0 0
  if dg.2 = 0 then ⟨0, 0, errno⟩
  else if dg.1 > UINTMAX_MAX then ⟨UINTMAX_MAX, sp.2 + sg.2.2 + dg.2, ERANGE⟩
  else ⟨if sg.1 then (2 ^ 64 - dg.1) % 2 ^ 64 else dg.1, sp.2 + sg.2.2 + dg.2, errno⟩

/-! ## Integer conversions -/

/-- The cast `(pid_t)x` of a `uintmax_t`: the low 32 bits read as two's complement. -/
def to_pid_t (x : Nat) : Int :=
  if x % 2 ^ 32 < 2 ^ 31 then ((x % 2 ^ 32 : Nat) : Int) else ((x % 2 ^ 32 : Nat) : Int) - 2 ^ 32

/-- The cast `(uintmax_t)p` of a `pid_t`: sign extension, that is reduction modulo 2^64. -/
def to_uintmax_t (p : Int) : Nat := (p % 2 ^ 64).toNat

/-- The character `*(s + p)` of the C string `s`; past the end it is the terminator. -/
def deref (s : List Char) (p : Nat) : Char := (s.drop p).headD NUL

/-! ## `pid_t_from_charbuf` (stopthread.c:44-59) -/

/-- The function `pid_t_from_charbuf(input, &output)`: returns the `int` result and the
content of `*output` afterwards (`output` is its content before). -/
def pid_t_from_charbuf (input : List Char) (output : Int) : Int × Int :=
  let r := strtoumax input 0
  if r.errno > 0 ∨ r.endptr = 0 ∨ deref input r.endptr ≠ NUL ∨
      r.value ≠ to_uintmax_t (to_pid_t r.value) then
    (-EINVAL, output)
  else
    (0, to_pid_t r.value)

/-! ## The kernel oracle and the observable world -/

/-- A tracing call as the program issues it. -/
inductive Call where
  | ptrace (request : Nat) (tid : Int)
  | wait4 (tid : Int) (options : Nat)
deriving DecidableEq, Repr

/-- The answer to a call: return value, the status stored by `wait4`, and `errno` after
the call. -/
structure Reply where
  ret : Int
  status : Int
  errno : Int
deriving DecidableEq, Repr

/-- An operating system behaviour: the answer to a call given the calls made before it. -/
abbrev Kernel := List Call → Call → Reply

/-- The platform the program runs on: the kernel and the C library `strerror`. -/
structure Platform where
  kernel : Kernel
  strerror : Nat → String

/-- What the program has done so far: tracing calls in order, lines written by the
program to standard output and to standard error. -/
structure World where
  calls : List Call
  stdout : List String
  stderr : List String
deriving DecidableEq, Repr

/-- The world at program start. -/
def World.init : World := ⟨[], [], []⟩

/-- Issue a call: the kernel answers from the history, the call is recorded. -/
def syscall (os : Kernel) (c : Call) (w : World) : Reply × World :=
  (os w.calls c, { w with calls := w.calls ++ [c] })

/-- The macro `WIFSTOPPED(status)`: `(status & 0xff) == 0x7f`. -/
def WIFSTOPPED (status : Int) : Bool := status % 256 = 127

/-- How a call of `stop_tid` ends: it returns an `int`, or the assertion fails and the
program aborts. -/
inductive StopResult where
  | returned (r : Int)
  | aborted
deriving DecidableEq, Repr

/-! ## `stop_tid` (stopthread.c:61-75) -/

/-- The function `stop_tid(tid)`: attach, interrupt, wait, each step returning `-errno` at
once when it fails, then `assert(WIFSTOPPED(status))`.  The assertion is compiled in (no
`NDEBUG`); its own message is not part of the recorded standard error. -/
def stop_tid (os : Kernel) (tid : Int) (w : World) : StopResult × World :=
  let a := syscall os (.ptrace PTRACE_SEIZE tid) w
  if a.1.ret ≠ 0 then (.returned (-a.1.errno), a.2)
  else
    let b := syscall os (.ptrace PTRACE_INTERRUPT tid) a.2
    if b.1.ret ≠ 0 then (.returned (-b.1.errno), b.2)
    else
      let c := syscall os (.wait4 tid __WALL) b.2
      if c.1.ret ≠ tid then (.returned (-c.1.errno), c.2)
      else if WIFSTOPPED c.1.status then (.returned 0, c.2)
      else (.aborted, c.2)

/-! ## `main` (stopthread.c:77-107) -/

/-- How `main` ends, as far as the program itself decides it: it returns an exit code, it
aborts, or it reaches `pause()`. -/
inductive Outcome where
  | exited (code : Int)
  | aborted
  | paused
deriving DecidableEq, Repr

/-- The text `%s` prints for a C string: the characters before the first NUL. -/
def c_str (s : List Char) : String := String.mk (s.takeWhile (fun c => c ≠ NUL))

/-- The line `fprintf(stderr, "invalid tid \x27%s\x27\n", argv[i])`. -/
def invalid_tid_line (token : List Char) : String :=
  "invalid tid \x27" ++ c_str token ++ "\x27\n"

/-- The line `fprintf(stderr, "cannot trace stop %ju: %s\n", (uintmax_t)tid, strerror(abs(r)))`. -/
def cannot_trace_stop_line (P : Platform) (tid r : Int) : String :=
  "cannot trace stop " ++ toString (to_uintmax_t tid) ++ ": " ++ P.strerror r.natAbs ++ "\n"

/-- The line `printf("Stopped TID %ju\n", (uintmax_t)tid)`. -/
def stopped_line (tid : Int) : String :=
  "Stopped TID " ++ toString (to_uintmax_t tid) ++ "\n"

def waiting_line : String := "Waiting for signal...\n"

/-- One pass through the body of the loop of `main`. -/
inductive Step where
  | next (w : World)
  | stop (o : Outcome) (w : World)
deriving DecidableEq, Repr

/-- The body of the `for` loop of `main` for `argv[i] = token` (stopthread.c:82-98).  The
local `tid` is uninitialised before the validator runs; it is read only after success. -/
def loop_body (P : Platform) (token : List Char) (w : World) : Step :=
  let v := pid_t_from_charbuf token 0
  if v.1 < 0 then
    .stop (.exited EXIT_FAILURE) { w with stderr := w.stderr ++ [invalid_tid_line token] }
  else
    match stop_tid P.kernel v.2 w with
    | (.aborted, w1) => .stop .aborted w1
    | (.returned r, w1) =>
      if r < 0 then
        .stop (.exited EXIT_FAILURE)
          { w1 with stderr := w1.stderr ++ [cannot_trace_stop_line P v.2 r] }
      else
        .next { w1 with stdout := w1.stdout ++ [stopped_line v.2] }

/-- The loop `for (i = 1; i < argc; i++)` over the remaining tokens, then the waiting line
and `pause()`. -/
def main_loop (P : Platform) : List (List Char) → World → Outcome × World
  | [], w => (.paused, { w with stdout := w.stdout ++ [waiting_line] })
  | token :: rest, w =>
    match loop_body P token w with
    | .next w1 => main_loop P rest w1
    | .stop o w1 => (o, w1)

/-- The program: `argv[0]` is skipped, the other arguments are the tokens. -/
def main (P : Platform) (argv : List (List Char)) : Outcome × World :=
  main_loop P (argv.drop 1) World.init

/-! ## Notions of the specification -/

/-- A token matching `^[0-9]+$`. -/
def is_decimal_token (s : List Char) : Prop := s ≠ [] ∧ ∀ c ∈ s, c.isDigit = true

/-- The numeric value of a string of decimal digits (most significant digit first). -/
def decimal_value (s : List Char) : Nat :=
  Nat.ofDigits 10 (s.reverse.map (fun c => c.toNat - 48))

/-- Remove one leading sign character, if there is one. -/
def strip_sign : List Char → List Char
  | [] => []
  | c :: cs => if c = '+' ∨ c = '-' then cs else c :: cs

/-- The shape `^[ \t\n\v\f\r]*[+-]?[0-9]+$`: white space, at most one sign, then one or more
decimal digits up to the end. -/
def is_signed_decimal_form (s : List Char) : Bool :=
  let d := strip_sign (s.dropWhile isspace)
  !d.isEmpty && d.all Char.isDigit

/-- The world after the loop has passed over all of `tokens` without leaving, if it does. -/
def run_tokens (P : Platform) : List (List Char) → World → Option World
  | [], w => some w
  | token :: rest, w =>
    match loop_body P token w with
    | .next w1 => run_tokens P rest w1
    | .stop _ _ => none

/-- The answer to the `PTRACE_SEIZE` call that `stop_tid(tid)` makes in world `w`. -/
def attach_reply (os : Kernel) (tid : Int) (w : World) : Reply :=
  os w.calls (.ptrace PTRACE_SEIZE tid)

/-- The answer to the `PTRACE_INTERRUPT` call that follows the attach. -/
def interrupt_reply (os : Kernel) (tid : Int) (w : World) : Reply :=
  os (w.calls ++ [.ptrace PTRACE_SEIZE tid]) (.ptrace PTRACE_INTERRUPT tid)

/-- The answer to the `wait4` call that follows attach and interrupt. -/
def wait_reply (os : Kernel) (tid : Int) (w : World) : Reply :=
  os (w.calls ++ [.ptrace PTRACE_SEIZE tid, .ptrace PTRACE_INTERRUPT tid]) (.wait4 tid __WALL)

/-- The world in which one pass through the loop body ends. -/
def Step.world : Step → World
  | .next w => w
  | .stop _ w => w

/-- The three calls of one successful `stop_tid`. -/
def stop_calls (tid : Int) : List Call :=
  [.ptrace PTRACE_SEIZE tid, .ptrace PTRACE_INTERRUPT tid, .wait4 tid __WALL]

/-- The calls of the happy path over a list of tokens. -/
def happy_calls : List (List Char) → List Call
  | [] => []
  | token :: rest => stop_calls (pid_t_from_charbuf token 0).2 ++ happy_calls rest

/-- The success line of a token. -/
def token_stopped_line (token : List Char) : String :=
  stopped_line (pid_t_from_charbuf token 0).2

/-! ## Example kernels -/

/-- The wait status of a tracee stopped by `SIGTRAP`: low byte `0x7f`. -/
def status_stopped : Int := 0x57f

/-- Every call succeeds and every wait reports a stop of the requested thread. -/
def kernel_all_stop : Kernel := fun _ c =>
  match c with
  | .ptrace _ _ => ⟨0, 0, 0⟩
  | .wait4 tid _ => ⟨tid, status_stopped, 0⟩

/-- Attach and interrupt succeed, the wait reports that the requested thread exited
(status 0). -/
def kernel_target_exits : Kernel := fun _ c =>
  match c with
  | .ptrace _ _ => ⟨0, 0, 0⟩
  | .wait4 tid _ => ⟨tid, 0, 0⟩

/-- A platform over a kernel, with a `strerror` that prints the error number. -/
def platform_of (os : Kernel) : Platform := ⟨os, fun n => "error " ++ toString n⟩

/-! ## Lemmas on the parse -/

theorem isdigit_of_isDigit (c : Char) (h : c.isDigit = true) : isdigit c = true := by
  simp only [Char.isDigit, Bool.and_eq_true, decide_eq_true_eq] at h
  simp only [isdigit, Bool.and_eq_true, decide_eq_true_eq]
  exact ⟨h.1, h.2⟩

theorem isspace_false_of_isdigit (c : Char) (h : isdigit c = true) : isspace c = false := by
  cases hs : isspace c with
  | false => rfl
  | true =>
    simp only [isspace, Bool.or_eq_true, decide_eq_true_eq] at hs
    rcases hs with ((((h1 | h1) | h1) | h1) | h1) | h1 <;> subst h1 <;>
      exact absurd h (by decide)

theorem not_sign_of_isdigit (c : Char) (h : isdigit c = true) : c ≠ '-' ∧ c ≠ '+' := by
  constructor <;> intro hc <;> subst hc <;> exact absurd h (by decide)

theorem isdigit_ne_NUL (c : Char) (h : isdigit c = true) : c ≠ NUL := by
  intro hc
  subst hc
  exact absurd h (by decide)

theorem digitValue_eq (c : Char) : digitValue c = c.toNat - 48 := rfl

/-- On a run of digits the loop consumes everything and folds the digits into the
accumulator. -/
theorem scanDigits_all (s : List Char) (hs : ∀ c ∈ s, isdigit c = true) (acc n : Nat) :
    scanDigits s acc n =
      (acc * 10 ^ s.length + decimal_value s, n + s.length) := by
  induction s generalizing acc n with
  | nil => simp [scanDigits, decimal_value]
  | cons c cs ih =>
    have hc : isdigit c = true := hs c (List.mem_cons_self _ _)
    have hcs : ∀ d ∈ cs, isdigit d = true := fun d hd => hs d (List.mem_cons_of_mem _ hd)
    rw [scanDigits, if_pos hc, ih hcs]
    simp only [decimal_value, List.reverse_cons, List.map_append, List.map_cons, List.map_nil,
      Nat.ofDigits_append, Nat.ofDigits_singleton, List.length_map, List.length_reverse,
      List.length_cons, digitValue_eq]
    refine Prod.ext ?_ ?_
    · simp only
      ring
    · simp only
      omega

/-- The parse of a token matching `^[0-9]+$`: its value or `UINTMAX_MAX` with `ERANGE`, and
the end pointer at the terminator. -/
theorem strtoumax_decimal (s : List Char) (hs : is_decimal_token s) (e : Int) :
    strtoumax s e =
      if decimal_value s > UINTMAX_MAX then ⟨UINTMAX_MAX, s.length, ERANGE⟩
      else ⟨decimal_value s, s.length, e⟩ := by
  obtain ⟨hne, hall⟩ := hs
  have hd : ∀ c ∈ s, isdigit c = true := fun c hc => isdigit_of_isDigit c (hall c hc)
  cases s with
  | nil => exact absurd rfl hne
  | cons c cs =>
    have hc : isdigit c = true := hd c (List.mem_cons_self _ _)
    have h1 : skipSpace (c :: cs) 0 = (c :: cs, 0) := by
      simp [skipSpace, isspace_false_of_isdigit c hc]
    have h2 : scanSign (c :: cs) = (false, c :: cs, 0) := by
      simp [scanSign, (not_sign_of_isdigit c hc).1, (not_sign_of_isdigit c hc).2]
    have h3 := scanDigits_all (c :: cs) hd 0 0
    simp only [strtoumax, h1, h2, h3]
    simp

theorem deref_length (s : List Char) : deref s s.length = NUL := by
  simp [deref]

theorem to_pid_t_small (v : Nat) (h : v < 2 ^ 31) : to_pid_t v = (v : Int) := by
  have h1 : v % 2 ^ 32 = v := Nat.mod_eq_of_lt (by omega)
  unfold to_pid_t
  rw [h1, if_pos h]

theorem to_uintmax_t_small (v : Nat) (h : v < 2 ^ 64) : to_uintmax_t (v : Int) = v := by
  unfold to_uintmax_t
  have : ((v : Int) % 2 ^ 64) = (v : Int) := Int.emod_eq_of_lt (by omega) (by exact_mod_cast h)
  rw [this]
  simp

theorem isDigit_of_isdigit (c : Char) (h : isdigit c = true) : c.isDigit = true := by
  simp only [isdigit, Bool.and_eq_true, decide_eq_true_eq] at h
  simp only [Char.isDigit, Bool.and_eq_true, decide_eq_true_eq]
  exact ⟨h.1, h.2⟩

theorem skipSpace_eq (s : List Char) (n : Nat) :
    skipSpace s n = (s.dropWhile isspace, n + (s.takeWhile isspace).length) := by
  induction s generalizing n with
  | nil => simp [skipSpace]
  | cons c cs ih =>
    by_cases hc : isspace c = true
    · rw [skipSpace, if_pos hc, ih]
      simp only [List.dropWhile_cons, List.takeWhile_cons, hc, if_true, List.length_cons]
      refine Prod.ext rfl ?_
      simp only
      omega
    · simp [skipSpace, hc]

theorem scanSign_rest (s : List Char) :
    (scanSign s).2.1 = strip_sign s ∧ s.drop (scanSign s).2.2 = strip_sign s := by
  cases s with
  | nil => simp [scanSign, strip_sign]
  | cons c cs =>
    by_cases h1 : c = '-'
    · simp [scanSign, strip_sign, h1]
    · by_cases h2 : c = '+'
      · simp [scanSign, strip_sign, h2]
      · simp [scanSign, strip_sign, h1, h2]

theorem scanDigits_count (s : List Char) (acc n : Nat) :
    (scanDigits s acc n).2 = n + (s.takeWhile isdigit).length := by
  induction s generalizing acc n with
  | nil => simp [scanDigits]
  | cons c cs ih =>
    by_cases hc : isdigit c = true
    · rw [scanDigits, if_pos hc, ih]
      simp only [List.takeWhile_cons, hc, if_true, List.length_cons]
      omega
    · simp [scanDigits, hc]

theorem drop_takeWhile_length (p : Char → Bool) (s : List Char) :
    s.drop (s.takeWhile p).length = s.dropWhile p := by
  induction s with
  | nil => simp
  | cons c cs ih =>
    by_cases hc : p c = true
    · simp [List.takeWhile_cons, List.dropWhile_cons, hc, ih]
    · simp [List.takeWhile_cons, List.dropWhile_cons, hc]

/-- Where `strtoumax` leaves the end pointer: at the start when no digit follows the white
space and sign, otherwise just past the run of digits. -/
theorem strtoumax_endptr (s : List Char) (e : Int) :
    ((strip_sign (s.dropWhile isspace)).takeWhile isdigit = [] → (strtoumax s e).endptr = 0) ∧
    ((strip_sign (s.dropWhile isspace)).takeWhile isdigit ≠ [] →
      s.drop (strtoumax s e).endptr = (strip_sign (s.dropWhile isspace)).dropWhile isdigit) := by
  have hsp := skipSpace_eq s 0
  have hsg := scanSign_rest (s.dropWhile isspace)
  have hdg : ∀ acc, (scanDigits (strip_sign (s.dropWhile isspace)) acc 0).2
      = ((strip_sign (s.dropWhile isspace)).takeWhile isdigit).length := by
    intro acc
    rw [scanDigits_count]
    omega
  have hdrop : s.drop ((s.takeWhile isspace).length + (scanSign (s.dropWhile isspace)).2.2 +
      ((strip_sign (s.dropWhile isspace)).takeWhile isdigit).length)
      = (strip_sign (s.dropWhile isspace)).dropWhile isdigit := by
    rw [← List.drop_drop, ← List.drop_drop, drop_takeWhile_length, hsg.2, drop_takeWhile_length]
  constructor
  · intro h
    simp only [strtoumax, hsp, hsg.1, hdg, h, List.length_nil, if_true]
  · intro h
    have hlen : ((strip_sign (s.dropWhile isspace)).takeWhile isdigit).length ≠ 0 := by
      intro h0
      exact h (List.length_eq_zero.mp h0)
    simp only [strtoumax, hsp, hsg.1, hdg, if_neg hlen, Nat.zero_add]
    split_ifs <;> exact hdrop

/-! ## Lemmas on `stop_tid` -/

/-- Whatever the kernel answers, `stop_tid` starts with `PTRACE_SEIZE` on its argument. -/
theorem stop_tid_first_call (os : Kernel) (tid : Int) (w : World) :
    ∃ l, (stop_tid os tid w).2.calls = w.calls ++ Call.ptrace PTRACE_SEIZE tid :: l := by
  unfold stop_tid syscall
  simp only
  split_ifs
  · exact ⟨[], by simp⟩
  · exact ⟨[.ptrace PTRACE_INTERRUPT tid], by simp⟩
  · exact ⟨[.ptrace PTRACE_INTERRUPT tid, .wait4 tid __WALL], by simp⟩
  · exact ⟨[.ptrace PTRACE_INTERRUPT tid, .wait4 tid __WALL], by simp⟩
  · exact ⟨[.ptrace PTRACE_INTERRUPT tid, .wait4 tid __WALL], by simp⟩

/-- The function `stop_tid` prints nothing. -/
theorem stop_tid_prints_nothing (os : Kernel) (tid : Int) (w : World) :
    (stop_tid os tid w).2.stdout = w.stdout ∧ (stop_tid os tid w).2.stderr = w.stderr := by
  unfold stop_tid syscall
  simp only
  split_ifs <;> exact ⟨rfl, rfl⟩

/-- The result of `stop_tid` in terms of the three answers of the kernel. -/
theorem stop_tid_eq (os : Kernel) (tid : Int) (w : World) :
    stop_tid os tid w =
      if (attach_reply os tid w).ret ≠ 0 then
        (.returned (-(attach_reply os tid w).errno),
          { w with calls := w.calls ++ [.ptrace PTRACE_SEIZE tid] })
      else if (interrupt_reply os tid w).ret ≠ 0 then
        (.returned (-(interrupt_reply os tid w).errno),
          { w with calls := w.calls ++ [.ptrace PTRACE_SEIZE tid, .ptrace PTRACE_INTERRUPT tid] })
      else if (wait_reply os tid w).ret ≠ tid then
        (.returned (-(wait_reply os tid w).errno), { w with calls := w.calls ++ stop_calls tid })
      else if WIFSTOPPED (wait_reply os tid w).status then
        (.returned 0, { w with calls := w.calls ++ stop_calls tid })
      else (.aborted, { w with calls := w.calls ++ stop_calls tid }) := by
  simp only [stop_tid, syscall, attach_reply, interrupt_reply, wait_reply, stop_calls,
    List.append_assoc, List.singleton_append, List.cons_append, List.nil_append]

/-! ## Lemmas on the loop of `main` -/

/-- When the loop body goes on to the next token it has printed the success line of the
token and nothing else. -/
theorem loop_body_next_prints (P : Platform) (token : List Char) (w w1 : World)
    (h : loop_body P token w = .next w1) :
    w1.stdout = w.stdout ++ [token_stopped_line token] ∧ w1.stderr = w.stderr := by
  have hp := stop_tid_prints_nothing P.kernel (pid_t_from_charbuf token 0).2 w
  unfold loop_body at h
  simp only at h
  split_ifs at h
  rcases hst : stop_tid P.kernel (pid_t_from_charbuf token 0).2 w with ⟨r, w2⟩
  rw [hst] at h hp
  cases r with
  | aborted => simp at h
  | returned r =>
    simp only at h
    split_ifs at h
    injection h with h
    subst h
    simp only at hp
    exact ⟨by simp [hp.1, token_stopped_line], hp.2⟩

theorem run_tokens_prints (P : Platform) (pre : List (List Char)) (w w1 : World)
    (h : run_tokens P pre w = some w1) :
    w1.stdout = w.stdout ++ pre.map token_stopped_line ∧ w1.stderr = w.stderr := by
  induction pre generalizing w with
  | nil =>
    simp only [run_tokens, Option.some.injEq] at h
    subst h
    simp
  | cons t ts ih =>
    simp only [run_tokens] at h
    cases hb : loop_body P t w with
    | stop o w2 => simp [hb] at h
    | next w2 =>
      rw [hb] at h
      have h1 := loop_body_next_prints P t w w2 hb
      have h2 := ih w2 h
      exact ⟨by simp [h2.1, h1.1], by rw [h2.2, h1.2]⟩

/-- After a prefix of tokens that the loop passes over, `main_loop` continues with the rest
from the world reached. -/
theorem main_loop_append (P : Platform) (pre rest : List (List Char)) (w w1 : World)
    (h : run_tokens P pre w = some w1) :
    main_loop P (pre ++ rest) w = main_loop P rest w1 := by
  induction pre generalizing w with
  | nil =>
    simp only [run_tokens, Option.some.injEq] at h
    subst h
    rfl
  | cons t ts ih =>
    simp only [run_tokens] at h
    cases hb : loop_body P t w with
    | stop o w2 => simp [hb] at h
    | next w2 =>
      rw [hb] at h
      simp only [List.cons_append, main_loop, hb]
      exact ih w2 h

/-- C1: a token of one or more decimal digits whose value is at most 2^31-1 is accepted:
`pid_t_from_charbuf` returns 0 and stores exactly the numeric value of the token. -/
theorem pid_t_from_charbuf_accepts_decimal (s : List Char) (out : Int)
    (hs : is_decimal_token s) (hv : decimal_value s ≤ 2 ^ 31 - 1) :
    pid_t_from_charbuf s out = (0, (decimal_value s : Int)) := by
  have hlen : s.length ≠ 0 := by
    intro h
    exact hs.1 (List.length_eq_zero.mp h)
  have hmax : ¬ decimal_value s > UINTMAX_MAX := by
    simp only [UINTMAX_MAX]
    omega
  have hp : to_pid_t (decimal_value s) = (decimal_value s : Int) :=
    to_pid_t_small _ (by omega)
  have hu : to_uintmax_t (decimal_value s : Int) = decimal_value s :=
    to_uintmax_t_small _ (by omega)
  simp only [pid_t_from_charbuf, strtoumax_decimal s hs, if_neg hmax, deref_length, hp, hu]
  simp [hlen]

theorem pid_t_from_charbuf_accepts_decimal_witness :
    is_decimal_token ['0', '0', '4', '2'] ∧ decimal_value ['0', '0', '4', '2'] ≤ 2 ^ 31 - 1 ∧
      pid_t_from_charbuf ['0', '0', '4', '2'] 7 =
        (0, (decimal_value ['0', '0', '4', '2'] : Int)) :=
  have h1 : is_decimal_token ['0', '0', '4', '2'] := ⟨by decide, by decide⟩
  have h2 : decimal_value ['0', '0', '4', '2'] ≤ 2 ^ 31 - 1 := by
    simp [decimal_value, Nat.ofDigits]
  ⟨h1, h2, pid_t_from_charbuf_accepts_decimal _ 7 h1 h2⟩

/-- C5: the token of the largest `pid_t`, "2147483647", is accepted with that value, and
the token of the next value, "2147483648", is rejected with `-EINVAL`. -/
theorem pid_t_from_charbuf_boundary (out : Int) :
    pid_t_from_charbuf ['2', '1', '4', '7', '4', '8', '3', '6', '4', '7'] out = (0, 2147483647) ∧
    pid_t_from_charbuf ['2', '1', '4', '7', '4', '8', '3', '6', '4', '8'] out = (-EINVAL, out) ∧
    decimal_value ['2', '1', '4', '7', '4', '8', '3', '6', '4', '7'] = PID_MAX.toNat ∧
    decimal_value ['2', '1', '4', '7', '4', '8', '3', '6', '4', '8'] = PID_MAX.toNat + 1 := by
  refine ⟨rfl, rfl, ?_, ?_⟩ <;> simp [decimal_value, Nat.ofDigits, PID_MAX]

/-- C3 (the code at the failing input): the all-digit token "18446744073709551615", whose
value 2^64-1 exceeds the largest `pid_t`, is not rejected: the validator returns 0 and
stores -1. -/
theorem pid_t_from_charbuf_accepts_uintmax (out : Int) :
    is_decimal_token "18446744073709551615".toList ∧
    2 ^ 31 - 1 < decimal_value "18446744073709551615".toList ∧
    pid_t_from_charbuf "18446744073709551615".toList out = (0, -1) := by
  refine ⟨⟨by decide, by decide⟩, ?_, rfl⟩
  simp [decimal_value, Nat.ofDigits]

/-- Decimal tokens above the `pid_t` range are rejected as long as their value stays below
2^64 - 2^31, and again from 2^64 on (where `strtoumax` reports `ERANGE`). -/
theorem pid_t_from_charbuf_rejects_out_of_range (s : List Char) (out : Int)
    (hs : is_decimal_token s) (hv : 2 ^ 31 - 1 < decimal_value s)
    (hr : decimal_value s < 2 ^ 64 - 2 ^ 31 ∨ 2 ^ 64 ≤ decimal_value s) :
    pid_t_from_charbuf s out = (-EINVAL, out) := by
  simp only [pid_t_from_charbuf, strtoumax_decimal s hs]
  by_cases hmax : decimal_value s > UINTMAX_MAX
  · simp [if_pos hmax, ERANGE]
  · simp only [if_neg hmax]
    have hlt : decimal_value s < 2 ^ 64 := by
      simp only [UINTMAX_MAX] at hmax
      omega
    have hne : decimal_value s ≠ to_uintmax_t (to_pid_t (decimal_value s)) := by
      unfold to_uintmax_t to_pid_t
      split <;> omega
    simp [hne]

/-- C4 (the code at the failing input): the token "-1" is accepted with the negative thread
id -1, and `main` passes -1 to `stop_tid`, whose first call is `PTRACE_SEIZE` on -1. -/
theorem pid_t_from_charbuf_accepts_minus_one (P : Platform) (argv0 : List Char) (out : Int) :
    pid_t_from_charbuf ['-', '1'] out = (0, -1) ∧
    (main P [argv0, ['-', '1']]).2.calls.head? = some (.ptrace PTRACE_SEIZE (-1)) := by
  refine ⟨rfl, ?_⟩
  have hv : pid_t_from_charbuf ['-', '1'] 0 = (0, -1) := rfl
  obtain ⟨l, hl⟩ := stop_tid_first_call P.kernel (-1) World.init
  simp only [main, List.drop, main_loop, loop_body, hv]
  rcases h : stop_tid P.kernel (-1) World.init with ⟨r, w1⟩
  rw [h] at hl
  simp only [World.init, List.nil_append] at hl
  cases r with
  | aborted => simp [hl]
  | returned r =>
    by_cases hr : r < 0
    · simp [hr, hl]
    · simp [hr, hl, main_loop]

/-! ## The validator on malformed tokens -/

theorem mem_of_mem_strip_sign (c : Char) (s : List Char) (h : c ∈ strip_sign s) : c ∈ s := by
  cases s with
  | nil => simp [strip_sign] at h
  | cons a t =>
    simp only [strip_sign] at h
    split_ifs at h
    · exact List.mem_cons_of_mem _ h
    · exact h

/-- C2 (counterexample): "+1" and " 1" do not consist solely of decimal digits, yet the
validator accepts both with the value 1. -/
theorem pid_t_from_charbuf_accepts_plus_and_space :
    (¬ is_decimal_token ['+', '1'] ∧ pid_t_from_charbuf ['+', '1'] 0 = (0, 1)) ∧
    (¬ is_decimal_token [' ', '1'] ∧ pid_t_from_charbuf [' ', '1'] 0 = (0, 1)) := by
  refine ⟨⟨fun h => ?_, rfl⟩, ⟨fun h => ?_, rfl⟩⟩
  · exact absurd (h.2 '+' (List.mem_cons_self _ _)) (by decide)
  · exact absurd (h.2 ' ' (List.mem_cons_self _ _)) (by decide)

/-- C2 (amended): every C string that is not of the shape white space, at most one sign,
one or more decimal digits up to the end, is rejected: the validator returns `-EINVAL` and
leaves `*output` alone.  This covers the empty string, a sign without digits, embedded or
trailing white space, a hexadecimal prefix and any embedded or trailing non-digit. -/
theorem pid_t_from_charbuf_rejects_malformed (s : List Char) (out : Int)
    (hnul : NUL ∉ s) (hform : is_signed_decimal_form s = false) :
    pid_t_from_charbuf s out = (-EINVAL, out) := by
  have key : (strtoumax s 0).endptr = 0 ∨ deref s (strtoumax s 0).endptr ≠ NUL := by
    by_cases h : (strip_sign (s.dropWhile isspace)).takeWhile isdigit = []
    · exact Or.inl ((strtoumax_endptr s 0).1 h)
    · right
      unfold deref
      rw [(strtoumax_endptr s 0).2 h]
      cases hrest : (strip_sign (s.dropWhile isspace)).dropWhile isdigit with
      | nil =>
        exfalso
        have hall : ∀ c ∈ strip_sign (s.dropWhile isspace), isdigit c = true := by
          simpa [List.dropWhile_eq_nil_iff] using hrest
        have hne : strip_sign (s.dropWhile isspace) ≠ [] := by
          intro h0
          exact h (by rw [h0]; rfl)
        have : is_signed_decimal_form s = true := by
          simp only [is_signed_decimal_form, Bool.and_eq_true, Bool.not_eq_true',
            List.isEmpty_eq_false, List.all_eq_true]
          exact ⟨hne, fun c hc => isDigit_of_isdigit c (hall c hc)⟩
        rw [this] at hform
        exact Bool.noConfusion hform
      | cons c cs =>
        have hc1 : c ∈ (strip_sign (s.dropWhile isspace)).dropWhile isdigit := by
          rw [hrest]
          exact List.mem_cons_self _ _
        have hc2 : c ∈ strip_sign (s.dropWhile isspace) :=
          (List.dropWhile_suffix _).subset hc1
        have hc3 : c ∈ s := (List.dropWhile_suffix _).subset (mem_of_mem_strip_sign _ _ hc2)
        simp only [List.headD_cons]
        intro hc
        exact hnul (hc ▸ hc3)
  unfold pid_t_from_charbuf
  simp only
  rw [if_pos]
  rcases key with h | h
  · exact Or.inr (Or.inl h)
  · exact Or.inr (Or.inr (Or.inl h))

theorem pid_t_from_charbuf_rejects_malformed_witness :
    NUL ∉ ['0', 'x', '1', '0'] ∧ is_signed_decimal_form ['0', 'x', '1', '0'] = false ∧
      pid_t_from_charbuf ['0', 'x', '1', '0'] 5 = (-EINVAL, 5) :=
  ⟨by decide, by decide,
    pid_t_from_charbuf_rejects_malformed ['0', 'x', '1', '0'] 5 (by decide) (by decide)⟩

/-! ## Orchestration -/

/-- The calls of one `stop_tid` are an initial part of attach, interrupt, wait. -/
theorem stop_tid_calls_prefix (os : Kernel) (tid : Int) (w : World) :
    ∃ l, l <+: stop_calls tid ∧ (stop_tid os tid w).2 = { w with calls := w.calls ++ l } := by
  rw [stop_tid_eq]
  split_ifs
  · exact ⟨[.ptrace PTRACE_SEIZE tid], ⟨[.ptrace PTRACE_INTERRUPT tid, .wait4 tid __WALL], rfl⟩, rfl⟩
  · exact ⟨[.ptrace PTRACE_SEIZE tid, .ptrace PTRACE_INTERRUPT tid], ⟨[.wait4 tid __WALL], rfl⟩, rfl⟩
  · exact ⟨stop_calls tid, List.prefix_refl _, rfl⟩
  · exact ⟨stop_calls tid, List.prefix_refl _, rfl⟩
  · exact ⟨stop_calls tid, List.prefix_refl _, rfl⟩

/-- The loop body on a token whose validation fails. -/
theorem loop_body_invalid (P : Platform) (token : List Char) (w : World)
    (h : (pid_t_from_charbuf token 0).1 < 0) :
    loop_body P token w =
      .stop (.exited EXIT_FAILURE) { w with stderr := w.stderr ++ [invalid_tid_line token] } := by
  simp only [loop_body, if_pos h]

/-- The validator returns 0 or `-EINVAL`. -/
theorem pid_t_from_charbuf_ret (s : List Char) (out : Int)
    (h : ¬ (pid_t_from_charbuf s out).1 < 0) : (pid_t_from_charbuf s out).1 = 0 := by
  unfold pid_t_from_charbuf at h ⊢
  simp only at h ⊢
  split_ifs at h ⊢
  · exact absurd (by decide : (-EINVAL : Int) < 0) h
  · rfl

/-- The calls of one pass through the loop body: none when the token is rejected, an
initial part of attach, interrupt, wait on its thread id when it is accepted. -/
theorem loop_body_calls (P : Platform) (token : List Char) (w : World) :
    ((pid_t_from_charbuf token 0).1 < 0 ∧ (loop_body P token w).world.calls = w.calls) ∨
    ((pid_t_from_charbuf token 0).1 = 0 ∧ ∃ l, l <+: stop_calls (pid_t_from_charbuf token 0).2 ∧
      (loop_body P token w).world.calls = w.calls ++ l) := by
  by_cases hv : (pid_t_from_charbuf token 0).1 < 0
  · left
    exact ⟨hv, by rw [loop_body_invalid P token w hv]; rfl⟩
  · right
    refine ⟨pid_t_from_charbuf_ret token 0 hv, ?_⟩
    obtain ⟨l, hl, hw⟩ := stop_tid_calls_prefix P.kernel (pid_t_from_charbuf token 0).2 w
    refine ⟨l, hl, ?_⟩
    rcases hst : stop_tid P.kernel (pid_t_from_charbuf token 0).2 w with ⟨r, w2⟩
    rw [hst] at hw
    simp only at hw
    subst hw
    simp only [loop_body, if_neg hv, hst]
    cases r with
    | aborted => rfl
    | returned r =>
      simp only
      split_ifs <;> rfl

/-- Before a rejected token, every call of the loop is in the world it started from or is
one of the three calls for an accepted earlier token. -/
theorem main_loop_calls_before_rejected (P : Platform) (pre : List (List Char))
    (token : List Char) (post : List (List Char)) (w : World)
    (hrej : (pid_t_from_charbuf token 0).1 < 0) :
    ∀ c ∈ (main_loop P (pre ++ token :: post) w).2.calls, c ∈ w.calls ∨
      ∃ t ∈ pre, (pid_t_from_charbuf t 0).1 = 0 ∧ c ∈ stop_calls (pid_t_from_charbuf t 0).2 := by
  induction pre generalizing w with
  | nil =>
    intro c hc
    simp only [List.nil_append, main_loop, loop_body_invalid P token w hrej] at hc
    exact Or.inl hc
  | cons t ts ih =>
    intro c hc
    have hcalls := loop_body_calls P t w
    have hstep : ∀ w2, (loop_body P t w).world = w2 → c ∈ w2.calls →
        c ∈ w.calls ∨ ∃ u ∈ t :: ts, (pid_t_from_charbuf u 0).1 = 0 ∧
          c ∈ stop_calls (pid_t_from_charbuf u 0).2 := by
      intro w2 hw2 hc2
      rw [hw2] at hcalls
      rcases hcalls with ⟨_, h⟩ | ⟨hv, l, hl, h⟩
      · rw [h] at hc2
        exact Or.inl hc2
      · rw [h] at hc2
        rcases List.mem_append.mp hc2 with h1 | h1
        · exact Or.inl h1
        · exact Or.inr ⟨t, List.mem_cons_self _ _, hv, hl.subset h1⟩
    cases hb : loop_body P t w with
    | stop o w2 =>
      simp only [List.cons_append, main_loop, hb] at hc
      exact hstep w2 (by rw [hb]; rfl) hc
    | next w2 =>
      simp only [List.cons_append, main_loop, hb] at hc
      rcases ih w2 c hc with h1 | ⟨u, hu, hv, hcu⟩
      · exact hstep w2 (by rw [hb]; rfl) h1
      · exact Or.inr ⟨u, List.mem_cons_of_mem _ hu, hv, hcu⟩

/-- C7: a token that the validator rejects causes no tracing call.  Whatever the kernel
does, every call of a run whose argument list holds a rejected token is one of the three
calls for an accepted token placed before it; and when the loop reaches the rejected token,
`main` appends the "invalid tid" line to standard error and returns `EXIT_FAILURE`, the
calls and standard output staying as they were. -/
theorem main_rejected_token_no_tracing (P : Platform) (argv0 : List Char)
    (pre : List (List Char)) (token : List Char) (post : List (List Char))
    (hrej : (pid_t_from_charbuf token 0).1 = -EINVAL) :
    (∀ c ∈ (main P (argv0 :: (pre ++ token :: post))).2.calls,
      ∃ t ∈ pre, (pid_t_from_charbuf t 0).1 = 0 ∧ c ∈ stop_calls (pid_t_from_charbuf t 0).2) ∧
    (∀ w, loop_body P token w =
      .stop (.exited EXIT_FAILURE) { w with stderr := w.stderr ++ [invalid_tid_line token] }) ∧
    (∀ w1, run_tokens P pre World.init = some w1 →
      main P (argv0 :: (pre ++ token :: post)) =
        (.exited EXIT_FAILURE, { w1 with stderr := w1.stderr ++ [invalid_tid_line token] })) := by
  have hv : (pid_t_from_charbuf token 0).1 < 0 := by
    rw [hrej]
    decide
  refine ⟨fun c hc => ?_, fun w => loop_body_invalid P token w hv, fun w1 hpre => ?_⟩
  · simp only [main, List.drop_succ_cons, List.drop_zero] at hc
    rcases main_loop_calls_before_rejected P pre token post World.init hv c hc with h | h
    · simp [World.init] at h
    · exact h
  · simp only [main, List.drop_succ_cons, List.drop_zero]
    rw [main_loop_append P pre (token :: post) World.init w1 hpre]
    simp only [main_loop, loop_body_invalid P token w1 hv]

theorem main_rejected_token_no_tracing_witness :
    (pid_t_from_charbuf ['2', 'x'] 0).1 = -EINVAL ∧
    main (platform_of kernel_all_stop) [[], ['1'], ['2', 'x'], ['3']] =
      (.exited EXIT_FAILURE, ⟨stop_calls 1, [stopped_line 1], [invalid_tid_line ['2', 'x']]⟩) :=
  have h2 : (pid_t_from_charbuf ['2', 'x'] 0).1 = -EINVAL := by decide
  ⟨h2, (main_rejected_token_no_tracing (platform_of kernel_all_stop) [] [['1']] ['2', 'x']
    [['3']] h2).2.2 ⟨stop_calls 1, [stopped_line 1], []⟩ (by rfl)⟩

theorem happy_calls_append (pre rest : List (List Char)) :
    happy_calls (pre ++ rest) = happy_calls pre ++ happy_calls rest := by
  induction pre with
  | nil => rfl
  | cons t ts ih => simp [happy_calls, ih]

/-- C9: if attach and interrupt succeed and the wait returns the requested id with a status
that is not "stopped", `stop_tid` does not return: the assertion fails after the three
calls.  A `main` that reaches a token for this id then aborts; it prints neither the success
line for the token nor a diagnostic, and it does not go on to later tokens. -/
theorem stop_tid_aborts_when_not_stopped (P : Platform) (tid : Int) (w : World)
    (ha : (attach_reply P.kernel tid w).ret = 0) (hi : (interrupt_reply P.kernel tid w).ret = 0)
    (hw : (wait_reply P.kernel tid w).ret = tid)
    (hs : WIFSTOPPED (wait_reply P.kernel tid w).status = false) :
    stop_tid P.kernel tid w = (.aborted, { w with calls := w.calls ++ stop_calls tid }) ∧
    ∀ (argv0 : List Char) (pre : List (List Char)) (token : List Char) (post : List (List Char)),
      run_tokens P pre World.init = some w → pid_t_from_charbuf token 0 = (0, tid) →
        main P (argv0 :: (pre ++ token :: post)) =
          (.aborted, ⟨w.calls ++ stop_calls tid, pre.map token_stopped_line, []⟩) := by
  have hst : stop_tid P.kernel tid w = (.aborted, { w with calls := w.calls ++ stop_calls tid }) := by
    rw [stop_tid_eq]
    simp [ha, hi, hw, hs]
  refine ⟨hst, fun argv0 pre token post hpre hv => ?_⟩
  have hprint := run_tokens_prints P pre World.init w hpre
  simp only [World.init, List.nil_append] at hprint
  simp only [main, List.drop_succ_cons, List.drop_zero]
  rw [main_loop_append P pre (token :: post) World.init w hpre]
  simp only [main_loop, loop_body, hv, hst]
  simp [hprint.1, hprint.2]

theorem stop_tid_aborts_when_not_stopped_witness :
    (stop_tid kernel_target_exits 7 World.init).1 = .aborted ∧
    main (platform_of kernel_target_exits) [[], ['7'], ['8']] =
      (.aborted, ⟨stop_calls 7, [], []⟩) :=
  have h := stop_tid_aborts_when_not_stopped (platform_of kernel_target_exits) 7 World.init
    (by rfl) (by rfl) (by rfl) (by rfl)
  ⟨congrArg Prod.fst h.1, h.2 [] [] ['7'] [['8']] (by rfl) (by rfl)⟩

end StopThread
